import Mathlib

/-!
Verification of the SwartzCodeReview review pipeline (`src/extension.ts`).

Modelling conventions used throughout this development:

* A diff text is represented by its list of lines, i.e. the `"\n"`-split of
  the string.  Every string operation the source performs on the diff (the
  multiline header regex, `slice` at match indices, `join('')` of slices)
  cuts exactly at line boundaries, so the representation is faithful.  A
  non-final slice carries its terminating newline; at the line level this
  means concatenating slices concatenates their line blocks, and an output
  string that ends with a newline shows up as a trailing empty line `""`.
* Node's `path.isAbsolute` / `path.relative(workspacePath, p)` pair used on
  exclusion entries is abstracted by `resolveAbs : String → Option String`
  (`some r` means the entry is absolute and resolves to `r` relative to the
  workspace; `none` means the entry is relative).  Likewise
  `resolvePath : String → String` abstracts the absolute-or-join resolution
  of checklist paths.
* The filesystem read is abstracted by `fsRead : String → Option String`;
  the VCS commands by `Except String String` inputs (error = rejected
  promise); report/manifest writes by `Option String` error slots.
* JavaScript `String.prototype.trim` is modelled by `jsTrim`; the JS string
  `length` / `slice` (UTF-16 units) are modelled by codepoint count / list
  take, which agree on all texts used here.
-/

namespace SwartzCodeReview

set_option maxRecDepth 16384

/-- Model of JavaScript `String.prototype.trim`. -/
def jsTrim (s : String) : String :=
  ⟨((s.data.dropWhile Char.isWhitespace).reverse.dropWhile Char.isWhitespace).reverse⟩

/-- Model of `str.replace(/\\/g, '/')`. -/
def normSlashes (s : String) : String :=
  ⟨s.data.map fun c => if c == '\\' then '/' else c⟩

/-- Model of `str.replace(/^\.\/+/, '')`: one replacement of a leading `.`
followed by one or more `/`. -/
def stripDotSlash (s : String) : String :=
  match s.data with
  | '.' :: rest => if rest.head? = some '/' then ⟨rest.dropWhile (· == '/')⟩ else s
  | _ => s

/-- Model of `str.replace(/^\/+/, '')`. -/
def stripLeadSlashes (s : String) : String :=
  ⟨s.data.dropWhile (· == '/')⟩

/-- Model of `str.replace(/\/+$/, '')`. -/
def stripTrailSlashes (s : String) : String :=
  ⟨(s.data.reverse.dropWhile (· == '/')).reverse⟩

/-- The per-file-path normalization applied at `extension.ts:138`, `:169`
and `:199`: backslashes to slashes, then strip one leading `./`. -/
def normFilePath (s : String) : String :=
  stripDotSlash (normSlashes s)

/-- Boolean test that `pre` is a prefix of `s` (JS `startsWith`). -/
def strStartsWith (s pre : String) : Bool :=
  pre.data.isPrefixOf s.data

/-- Boolean test that `suf` is a suffix of `s` (JS `endsWith`). -/
def strEndsWith (s suf : String) : Bool :=
  suf.data.isSuffixOf s.data

/-- Boolean test that `needle` occurs contiguously inside `hay`. -/
def containsSeg (needle : List Char) : List Char → Bool
  | [] => needle.isEmpty
  | c :: rest => needle.isPrefixOf (c :: rest) || containsSeg needle rest

/-- `sections.join(sep)` with JavaScript `Array.prototype.join` semantics. -/
def joinSep (sep : String) : List String → String
  | [] => ""
  | [x] => x
  | x :: y :: ys => x ++ sep ++ joinSep sep (y :: ys)

/-- Split a string at every occurrence of the character `c`
(JS `str.split(c)`: never returns an empty list). -/
def splitOnCharAux (c : Char) : List Char → List Char → List String
  | [], acc => [⟨acc.reverse⟩]
  | x :: xs, acc =>
    if x == c then ⟨acc.reverse⟩ :: splitOnCharAux c xs []
    else splitOnCharAux c xs (x :: acc)

/-- JS `str.split(c)` for a one-character separator. -/
def splitOnChar (c : Char) (s : String) : List String :=
  splitOnCharAux c s.data []

/-- A diff text as its list of lines (`text.split('\n')`). -/
def toLines (s : String) : List String := splitOnChar '\n' s

/-- Rejoin lines with `"\n"`; inverse of `toLines` on newline-free lines. -/
def joinLines (L : List String) : String := joinSep "\n" L

/-- `TextChunk` from `extension.ts:76`. -/
structure TextChunk where
  text : String
  truncated : Bool
deriving DecidableEq, Repr

/-- `MAX_DIFF_CHARS` (`extension.ts:10`). -/
def MAX_DIFF_CHARS : Nat := 60000

/-- `MAX_CHECKLIST_CHARS` (`extension.ts:11`). -/
def MAX_CHECKLIST_CHARS : Nat := 20000

/-- `limitText` (`extension.ts:97`): cap a string at `limit` characters,
flagging truncation. -/
def limitText (input : String) (limit : Nat) : TextChunk :=
  if input.length ≤ limit then { text := input, truncated := false }
  else { text := ⟨input.data.take limit⟩, truncated := true }

theorem limitText_of_le {s : String} {limit : Nat} (h : s.length ≤ limit) :
    limitText s limit = { text := s, truncated := false } := by
  simp [limitText, h]

theorem limitText_of_gt {s : String} {limit : Nat} (h : limit < s.length) :
    limitText s limit = { text := ⟨s.data.take limit⟩, truncated := true } := by
  simp [limitText, Nat.not_le.mpr h]

/-- **C6.** For every input string and cap, `limitText` returns output whose
length is at most the cap; if the input length is at most the cap the
truncated flag is false and the output equals the input exactly; if the
input exceeds the cap, only the prefix of exactly `limit` characters is
kept and the truncated flag is set. -/
theorem limitText_spec (s : String) (limit : Nat) :
    (limitText s limit).text.length ≤ limit ∧
    (s.length ≤ limit →
      (limitText s limit).truncated = false ∧ (limitText s limit).text = s) ∧
    (limit < s.length →
      (limitText s limit).truncated = true ∧
      (limitText s limit).text.data = s.data.take limit ∧
      (limitText s limit).text.length = limit ∧
      (limitText s limit).text.data <+: s.data) := by
  by_cases h : s.length ≤ limit
  · refine ⟨by simpa [limitText_of_le h] using h, fun _ => by simp [limitText_of_le h],
      fun hgt => absurd hgt (Nat.not_lt.mpr h)⟩
  · have hgt := Nat.not_le.mp h
    have hlen : (limitText s limit).text.length = limit := by
      rw [limitText_of_gt hgt]
      show (List.take limit s.data).length = limit
      have hle : limit ≤ s.data.length := Nat.le_of_lt hgt
      simp only [List.length_take]
      omega
    refine ⟨Nat.le_of_eq hlen, fun hle => absurd hle h, fun _ => ?_⟩
    refine ⟨by simp [limitText_of_gt hgt], by simp [limitText_of_gt hgt], hlen, ?_⟩
    rw [limitText_of_gt hgt]
    exact List.take_prefix limit s.data

/-- Witness for C6 at a concrete input exceeding the cap: input of length 8,
cap 5, so the prefix of exactly 5 characters is kept and flagged. -/
theorem limitText_spec_witness :
    (limitText "abcdefgh" 5).text.length ≤ 5 ∧
    (limitText "abcdefgh" 5).truncated = true ∧
    (limitText "abcdefgh" 5).text = "abcde" := by
  have h := limitText_spec "abcdefgh" 5
  have h3 := h.2.2 (by decide)
  exact ⟨h.1, h3.1, by decide⟩

/-- `normalizeRelativePath` (`extension.ts:104`): trim, resolve absolute
entries against the workspace (abstracted by `resolveAbs`), strip a leading
`./` from relative entries, then normalize separators and leading/trailing
slashes; empty results become `none`. -/
def normalizeRelativePath (resolveAbs : String → Option String)
    (inputPath : String) : Option String :=
  let trimmed := jsTrim inputPath
  if trimmed = "" then none
  else
    let relative := match resolveAbs trimmed with
      | some r => r
      | none => stripDotSlash trimmed
    let normalized :=
      stripTrailSlashes (stripLeadSlashes (stripDotSlash (normSlashes relative)))
    if normalized = "" then none else some normalized

/-- Append `x` to `acc` unless already present: one `Set.add` step in
insertion order. -/
def insertOnce (acc : List String) (x : String) : List String :=
  if x ∈ acc then acc else acc ++ [x]

/-- Add all of `xs` to the insertion-ordered set `acc`. -/
def addAll (acc xs : List String) : List String :=
  xs.foldl insertOnce acc

/-- `Array.from(new Set(xs))`: de-duplicate keeping first occurrences. -/
def dedupKeepFirst (xs : List String) : List String :=
  addAll [] xs

/-- `buildExclusionList` (`extension.ts:123`). -/
def buildExclusionList (resolveAbs : String → Option String)
    (paths : List String) : List String :=
  dedupKeepFirst (paths.filterMap (normalizeRelativePath resolveAbs))

/-- `shouldExcludeFile` (`extension.ts:133`): the match rule — the
normalized path equals a rule, or starts with the rule followed by `/`. -/
def shouldExcludeFile (filePath : String) (exclusions : List String) : Bool :=
  if exclusions = [] then false
  else
    let normalized := normFilePath filePath
    exclusions.any fun pattern =>
      normalized == pattern || strStartsWith normalized (pattern ++ "/")

/-- The literal line head of a git diff file header. -/
def headerTag : String := "diff --git a/"

/-- Valid greedy split point for the header regex: position `i` of an
occurrence of `" b/"` in `cs` leaving a non-empty group before and after. -/
def sepHere (cs : List Char) (i : Nat) : Bool :=
  decide (1 ≤ i) && [' ', 'b', '/'].isPrefixOf (cs.drop i) && decide (i + 3 < cs.length)

/-- Greedy matching of `(.+) b\/(.+)` takes the last valid occurrence of
`" b/"`. -/
def lastSepIdx (cs : List Char) : Option Nat :=
  ((List.range cs.length).filter (sepHere cs)).getLast?

/-- One line matched against `^diff --git a\/(.+) b\/(.+)$`
(`extension.ts:154`), returning capture group 2 (the `b/`-side path, which
is what `match[2] ?? match[1] ?? ''` selects when the line matches). -/
def headerPath (line : String) : Option String :=
  if headerTag.data.isPrefixOf line.data then
    let cs := line.data.drop headerTag.data.length
    match lastSepIdx cs with
    | some i => some ⟨cs.drop (i + 3)⟩
    | none => none
  else none

/-- Decompose a diff (as lines) into the preamble (lines before the first
header) and the list of segments, each carrying its header path and its
block of lines from the header up to the next header.  This models the
regex-exec loop plus the `slice` calls at the collected match indices
(`extension.ts:154`–`:198`). -/
def segmentDiff : List String → List String × List (String × List String)
  | [] => ([], [])
  | l :: ls =>
    let r := segmentDiff ls
    match headerPath l with
    | some p => ([], (p, l :: r.1) :: r.2)
    | none => (l :: r.1, r.2)

/-- `DiffFilterResult` (`extension.ts:81`), with the output text as lines. -/
structure DiffFilterResult where
  text : List String
  includedFiles : List String
  excludedFiles : List String
  allFiles : List String
deriving DecidableEq, Repr

/-- The mutable state of the per-segment loop of `filterDiffByPaths`:
collected output parts and the three insertion-ordered file sets. -/
structure SegLoopState where
  parts : List (List String)
  excludedFiles : List String
  includedFiles : List String
  allFiles : List String

/-- One iteration of the loop at `extension.ts:195`–`:209`. -/
def segStep (exclusions : List String) (st : SegLoopState)
    (seg : String × List String) : SegLoopState :=
  let filePath := normFilePath seg.1
  let st1 : SegLoopState := { st with allFiles := insertOnce st.allFiles filePath }
  if shouldExcludeFile filePath exclusions then
    { st1 with excludedFiles := insertOnce st1.excludedFiles filePath }
  else
    { st1 with includedFiles := insertOnce st1.includedFiles filePath
             , parts := st1.parts ++ [seg.2] }

/-- `filterDiffByPaths` (`extension.ts:147`).  The output text is the
`join('')` of the pushed slices, rendered at the line level: the preamble
block (pushed when non-empty), then each included block; when the final
segment of the diff is excluded the string output ends with a newline,
which at the line level is a trailing `""`. -/
def filterDiffByPaths (resolveAbs : String → Option String)
    (diffLines : List String) (rawExclusions : List String)
    (knownAllFiles : List String) : DiffFilterResult :=
  let exclusions := buildExclusionList resolveAbs rawExclusions
  let pre := (segmentDiff diffLines).1
  let segs := (segmentDiff diffLines).2
  let normalizedKnownFiles :=
    dedupKeepFirst (((knownAllFiles.map jsTrim).filter (fun f => f != "")).map normFilePath)
  let st0 : SegLoopState :=
    { parts := if pre = [] then [] else [pre]
    , excludedFiles :=
        addAll [] (normalizedKnownFiles.filter fun f => shouldExcludeFile f exclusions)
    , includedFiles :=
        addAll [] (normalizedKnownFiles.filter fun f => !shouldExcludeFile f exclusions)
    , allFiles := normalizedKnownFiles }
  if segs = [] then
    { text := diffLines
    , excludedFiles := st0.excludedFiles
    , includedFiles := if st0.includedFiles = [] then st0.allFiles else st0.includedFiles
    , allFiles := st0.allFiles }
  else
    let stF := segs.foldl (segStep exclusions) st0
    let lastExcluded := match segs.getLast? with
      | some s => shouldExcludeFile (normFilePath s.1) exclusions
      | none => false
    let textOut := if exclusions = [] then diffLines
      else stF.parts.flatten ++ (if lastExcluded then [""] else [])
    { text := textOut
    , excludedFiles := stF.excludedFiles
    , includedFiles := if stF.includedFiles = [] then stF.allFiles else stF.includedFiles
    , allFiles := stF.allFiles }

theorem segmentDiff_cons_some {l p : String} {ls : List String}
    (hl : headerPath l = some p) :
    segmentDiff (l :: ls) = ([], (p, l :: (segmentDiff ls).1) :: (segmentDiff ls).2) := by
  simp only [segmentDiff, hl]

theorem segmentDiff_cons_none {l : String} {ls : List String}
    (hl : headerPath l = none) :
    segmentDiff (l :: ls) = (l :: (segmentDiff ls).1, (segmentDiff ls).2) := by
  simp only [segmentDiff, hl]

theorem segmentDiff_pre_no_header :
    ∀ L : List String, ∀ l ∈ (segmentDiff L).1, headerPath l = none
  | [], _, h => by simp [segmentDiff] at h
  | l :: ls, x, hx => by
    cases hl : headerPath l with
    | some p => rw [segmentDiff_cons_some hl] at hx; simp at hx
    | none =>
      rw [segmentDiff_cons_none hl] at hx
      simp only [List.mem_cons] at hx
      rcases hx with rfl | hx
      · exact hl
      · exact segmentDiff_pre_no_header ls x hx

/-- Well-formedness of one segment produced by `segmentDiff`: it starts
with its header line and contains no further header lines. -/
def SegWF (s : String × List String) : Prop :=
  ∃ h t, s.2 = h :: t ∧ headerPath h = some s.1 ∧ ∀ l ∈ t, headerPath l = none

theorem segmentDiff_segs_wf :
    ∀ L : List String, ∀ s ∈ (segmentDiff L).2, SegWF s
  | [], _, h => by simp [segmentDiff] at h
  | l :: ls, x, hx => by
    cases hl : headerPath l with
    | some p =>
      rw [segmentDiff_cons_some hl] at hx
      simp only [List.mem_cons] at hx
      rcases hx with rfl | hx
      · exact ⟨l, (segmentDiff ls).1, rfl, hl, segmentDiff_pre_no_header ls⟩
      · exact segmentDiff_segs_wf ls x hx
    | none =>
      rw [segmentDiff_cons_none hl] at hx
      exact segmentDiff_segs_wf ls x hx

theorem segmentDiff_reconstruct :
    ∀ L : List String, (segmentDiff L).1 ++ ((segmentDiff L).2.map Prod.snd).flatten = L
  | [] => rfl
  | l :: ls => by
    have ih := segmentDiff_reconstruct ls
    cases hl : headerPath l with
    | some p => rw [segmentDiff_cons_some hl]; simpa using ih
    | none => rw [segmentDiff_cons_none hl]; simpa using ih

theorem segmentDiff_pre_of_nil_segs :
    ∀ L : List String, (segmentDiff L).2 = [] → (segmentDiff L).1 = L
  | [], _ => rfl
  | l :: ls, h => by
    cases hl : headerPath l with
    | some p => rw [segmentDiff_cons_some hl] at h; simp at h
    | none =>
      rw [segmentDiff_cons_none hl] at h ⊢
      simpa using segmentDiff_pre_of_nil_segs ls h

theorem segmentDiff_append_no_header :
    ∀ (P : List String), (∀ l ∈ P, headerPath l = none) → ∀ M : List String,
      segmentDiff (P ++ M) = (P ++ (segmentDiff M).1, (segmentDiff M).2)
  | [], _, M => by simp
  | l :: ls, hP, M => by
    have hl : headerPath l = none := hP l (by simp)
    have ih := segmentDiff_append_no_header ls (fun x hx => hP x (by simp [hx])) M
    calc segmentDiff ((l :: ls) ++ M) = segmentDiff (l :: (ls ++ M)) := by simp
    _ = (l :: (segmentDiff (ls ++ M)).1, (segmentDiff (ls ++ M)).2) :=
        segmentDiff_cons_none hl
    _ = (l :: (ls ++ (segmentDiff M).1), (segmentDiff M).2) := by rw [ih]
    _ = ((l :: ls) ++ (segmentDiff M).1, (segmentDiff M).2) := by simp

theorem segmentDiff_headerless (P : List String)
    (hP : ∀ l ∈ P, headerPath l = none) : segmentDiff P = (P, []) := by
  have h := segmentDiff_append_no_header P hP []
  simpa [segmentDiff] using h

theorem segmentDiff_block {h : String} {p : String} (t M : List String)
    (hh : headerPath h = some p) (ht : ∀ l ∈ t, headerPath l = none) :
    segmentDiff ((h :: t) ++ M) =
      ([], (p, h :: (t ++ (segmentDiff M).1)) :: (segmentDiff M).2) := by
  have ih := segmentDiff_append_no_header t ht M
  calc segmentDiff ((h :: t) ++ M) = segmentDiff (h :: (t ++ M)) := by simp
  _ = ([], (p, h :: (segmentDiff (t ++ M)).1) :: (segmentDiff (t ++ M)).2) :=
      segmentDiff_cons_some hh
  _ = ([], (p, h :: (t ++ (segmentDiff M).1)) :: (segmentDiff M).2) := by rw [ih]

/-- Extend the last segment's block by `T` (the trailing lines the final
output slice carries). -/
def extendLast (T : List String) : List (String × List String) → List (String × List String)
  | [] => []
  | [s] => [(s.1, s.2 ++ T)]
  | s :: s2 :: rest => s :: extendLast T (s2 :: rest)

theorem extendLast_fst (T : List String) :
    ∀ segs, (extendLast T segs).map Prod.fst = segs.map Prod.fst
  | [] => rfl
  | [s] => rfl
  | s :: s2 :: rest => by
    simp only [extendLast, List.map_cons, List.cons.injEq, true_and]
    exact extendLast_fst T (s2 :: rest)

theorem extendLast_flatten (T : List String) :
    ∀ segs, segs ≠ [] →
      ((extendLast T segs).map Prod.snd).flatten = (segs.map Prod.snd).flatten ++ T
  | [], h => absurd rfl h
  | [s], _ => by simp [extendLast]
  | s :: s2 :: rest, _ => by
    have ih := extendLast_flatten T (s2 :: rest) (by simp)
    simp only [extendLast, List.map_cons, List.flatten_cons, ih, List.append_assoc]

theorem extendLast_cons_shape (T : List String) (s2 : String × List String)
    (rest : List (String × List String)) :
    ∃ u us, extendLast T (s2 :: rest) = u :: us := by
  cases rest with
  | nil => exact ⟨(s2.1, s2.2 ++ T), [], rfl⟩
  | cons r rs => exact ⟨s2, extendLast T (r :: rs), rfl⟩

theorem extendLast_getLast_fst (T : List String) :
    ∀ segs, segs ≠ [] →
      ∃ a b, segs.getLast? = some a ∧ (extendLast T segs).getLast? = some b ∧ b.1 = a.1
  | [], h => absurd rfl h
  | [s], _ => ⟨s, (s.1, s.2 ++ T), rfl, rfl, rfl⟩
  | s :: s2 :: rest, _ => by
    obtain ⟨a, b, ha, hb, hab⟩ := extendLast_getLast_fst T (s2 :: rest) (by simp)
    obtain ⟨u, us, hu⟩ := extendLast_cons_shape T s2 rest
    refine ⟨a, b, ?_, ?_, hab⟩
    · rw [List.getLast?_cons_cons]; exact ha
    · show (extendLast T (s :: s2 :: rest)).getLast? = some b
      simp only [extendLast]
      rw [hu, List.getLast?_cons_cons, ← hu]
      exact hb

theorem segStep_parts (ex : List String) (st : SegLoopState) (s : String × List String) :
    (segStep ex st s).parts =
      st.parts ++ (if shouldExcludeFile (normFilePath s.1) ex then [] else [s.2]) := by
  cases h : shouldExcludeFile (normFilePath s.1) ex <;> simp [segStep, h]

theorem segStep_allFiles (ex : List String) (st : SegLoopState) (s : String × List String) :
    (segStep ex st s).allFiles = insertOnce st.allFiles (normFilePath s.1) := by
  cases h : shouldExcludeFile (normFilePath s.1) ex <;> simp [segStep, h]

theorem segStep_excludedFiles (ex : List String) (st : SegLoopState) (s : String × List String) :
    (segStep ex st s).excludedFiles =
      if shouldExcludeFile (normFilePath s.1) ex then
        insertOnce st.excludedFiles (normFilePath s.1)
      else st.excludedFiles := by
  cases h : shouldExcludeFile (normFilePath s.1) ex <;> simp [segStep, h]

theorem segStep_includedFiles (ex : List String) (st : SegLoopState) (s : String × List String) :
    (segStep ex st s).includedFiles =
      if shouldExcludeFile (normFilePath s.1) ex then st.includedFiles
      else insertOnce st.includedFiles (normFilePath s.1) := by
  cases h : shouldExcludeFile (normFilePath s.1) ex <;> simp [segStep, h]

theorem foldl_segStep_parts (ex : List String) :
    ∀ (segs : List (String × List String)) (st : SegLoopState),
      (segs.foldl (segStep ex) st).parts =
        st.parts ++
          ((segs.filter fun s => !shouldExcludeFile (normFilePath s.1) ex).map Prod.snd)
  | [], st => by simp
  | s :: rest, st => by
    rw [List.foldl_cons, foldl_segStep_parts ex rest, segStep_parts]
    cases h : shouldExcludeFile (normFilePath s.1) ex <;>
      simp [List.filter_cons, h]

theorem foldl_segStep_allFiles (ex : List String) :
    ∀ (segs : List (String × List String)) (st : SegLoopState),
      (segs.foldl (segStep ex) st).allFiles =
        addAll st.allFiles (segs.map fun s => normFilePath s.1)
  | [], st => by simp [addAll]
  | s :: rest, st => by
    rw [List.foldl_cons, foldl_segStep_allFiles ex rest]
    simp [addAll, segStep_allFiles]

theorem foldl_segStep_excludedFiles (ex : List String) :
    ∀ (segs : List (String × List String)) (st : SegLoopState),
      (segs.foldl (segStep ex) st).excludedFiles =
        addAll st.excludedFiles
          (((segs.map fun s => normFilePath s.1).filter fun f => shouldExcludeFile f ex))
  | [], st => by simp [addAll]
  | s :: rest, st => by
    rw [List.foldl_cons, foldl_segStep_excludedFiles ex rest, segStep_excludedFiles]
    cases h : shouldExcludeFile (normFilePath s.1) ex <;>
      simp [List.filter_cons, h, addAll]

theorem foldl_segStep_includedFiles (ex : List String) :
    ∀ (segs : List (String × List String)) (st : SegLoopState),
      (segs.foldl (segStep ex) st).includedFiles =
        addAll st.includedFiles
          (((segs.map fun s => normFilePath s.1).filter fun f => !shouldExcludeFile f ex))
  | [], st => by simp [addAll]
  | s :: rest, st => by
    rw [List.foldl_cons, foldl_segStep_includedFiles ex rest, segStep_includedFiles]
    cases h : shouldExcludeFile (normFilePath s.1) ex <;>
      simp [List.filter_cons, h, addAll]

theorem mem_insertOnce {a x : String} {acc : List String} :
    a ∈ insertOnce acc x ↔ a ∈ acc ∨ a = x := by
  unfold insertOnce
  split
  · rename_i hx
    constructor
    · exact Or.inl
    · rintro (h | rfl)
      · exact h
      · exact hx
  · simp

theorem mem_addAll {a : String} :
    ∀ (xs acc : List String), a ∈ addAll acc xs ↔ a ∈ acc ∨ a ∈ xs
  | [], acc => by simp [addAll]
  | x :: xs, acc => by
    have step : addAll acc (x :: xs) = addAll (insertOnce acc x) xs := by
      simp [addAll]
    rw [step, mem_addAll xs, mem_insertOnce]
    simp only [List.mem_cons]
    tauto

/-- The output text of `filterDiffByPaths`, declaratively: the input when
the rule set is empty, otherwise the preamble followed by exactly the
non-matching segments in original order (with the trailing empty line that
marks the final newline when the diff's last segment was excluded). -/
theorem filter_text_eq (resolveAbs : String → Option String)
    (L raw known : List String) :
    (filterDiffByPaths resolveAbs L raw known).text =
      if buildExclusionList resolveAbs raw = [] then L
      else
        (segmentDiff L).1
          ++ (((segmentDiff L).2.filter fun s =>
                !shouldExcludeFile (normFilePath s.1) (buildExclusionList resolveAbs raw)).map
                Prod.snd).flatten
          ++ (match (segmentDiff L).2.getLast? with
              | some s =>
                if shouldExcludeFile (normFilePath s.1) (buildExclusionList resolveAbs raw)
                then [""] else []
              | none => ([] : List String)) := by
  unfold filterDiffByPaths
  by_cases hsegs : (segmentDiff L).2 = []
  · simp only [hsegs, if_pos rfl]
    rw [segmentDiff_pre_of_nil_segs L hsegs]
    simp
  · simp only [if_neg hsegs]
    by_cases hex : buildExclusionList resolveAbs raw = []
    · simp [hex]
    · simp only [if_neg hex]
      rw [foldl_segStep_parts]
      have hpre : (if (segmentDiff L).1 = [] then ([] : List (List String))
          else [(segmentDiff L).1]).flatten = (segmentDiff L).1 := by
        split <;> simp_all
      rw [List.flatten_append, hpre]
      cases hlast : (segmentDiff L).2.getLast? with
      | none => simp at hlast; exact absurd hlast hsegs
      | some s => simp [List.append_assoc]

/-- **C1.** For every exclusion rule set and diff text, the filter's output
text omits exactly the segments whose normalized path matches a rule
(`shouldExcludeFile` is the match rule: equality with a rule, or the rule
followed by `/`), and every non-matching segment appears verbatim, in its
original relative order: the output is the preamble followed by the
non-matching segments' blocks in order (an empty rule set matches nothing
and the input is returned whole; when the final segment is excluded the
output string keeps the newline that terminated the last included slice,
which at the line level is a trailing `""`). -/
theorem filter_omits_exactly_matching_segments (resolveAbs : String → Option String)
    (L raw known : List String) :
    (filterDiffByPaths resolveAbs L raw known).text =
      if buildExclusionList resolveAbs raw = [] then L
      else
        (segmentDiff L).1
          ++ (((segmentDiff L).2.filter fun s =>
                !shouldExcludeFile (normFilePath s.1) (buildExclusionList resolveAbs raw)).map
                Prod.snd).flatten
          ++ (match (segmentDiff L).2.getLast? with
              | some s =>
                if shouldExcludeFile (normFilePath s.1) (buildExclusionList resolveAbs raw)
                then [""] else []
              | none => ([] : List String)) :=
  filter_text_eq resolveAbs L raw known

/-- **C5.** With an empty exclusion rule set the filter returns its input
diff text unchanged, byte for byte, for every input and known-file list. -/
theorem filter_empty_rules_identity (resolveAbs : String → Option String)
    (L known : List String) :
    (filterDiffByPaths resolveAbs L [] known).text = L := by
  have h := filter_text_eq resolveAbs L [] known
  have hex : buildExclusionList resolveAbs [] = [] := rfl
  rw [hex] at h
  simpa using h

/-- **C3 (amended).** The preamble is retained in the filter output in every
case: when no filtering is applied the whole input (which starts with the
preamble) is returned, and when the output is rebuilt from segments the
preamble is pushed as the first part, so the output always begins with the
preamble. -/
theorem filter_retains_preamble (resolveAbs : String → Option String)
    (L raw known : List String) :
    ∃ rest, (filterDiffByPaths resolveAbs L raw known).text = (segmentDiff L).1 ++ rest := by
  rw [filter_text_eq]
  split
  · exact ⟨((segmentDiff L).2.map Prod.snd).flatten, (segmentDiff_reconstruct L).symm⟩
  · exact ⟨_, by rw [List.append_assoc]⟩

/-- **C3 (counterexample).** The claim says the preamble is not carried
into the rebuilt output when a non-empty rule set causes rebuilding.  At
this concrete input the rule set is non-empty, the diff has the non-empty
preamble `["junk"]`, one segment is excluded (so the output is rebuilt),
and yet the rebuilt output still begins with the preamble line `"junk"`. -/
theorem filter_preamble_counterexample :
    buildExclusionList (fun _ => none) ["vendor"] = ["vendor"] ∧
    (segmentDiff ["junk", "diff --git a/a.go b/a.go", "+x",
        "diff --git a/vendor/v.go b/vendor/v.go", "+y"]).1 = ["junk"] ∧
    (filterDiffByPaths (fun _ => none)
        ["junk", "diff --git a/a.go b/a.go", "+x",
         "diff --git a/vendor/v.go b/vendor/v.go", "+y"]
        ["vendor"] []).text =
      ["junk", "diff --git a/a.go b/a.go", "+x", ""] := by decide

/-- The normalized, de-duplicated known-file list (`extension.ts:164`). -/
def knownNorm (known : List String) : List String :=
  dedupKeepFirst (((known.map jsTrim).filter (fun f => f != "")).map normFilePath)

/-- The normalized header paths of the diff's segments, in order. -/
def segPaths (L : List String) : List String :=
  (segmentDiff L).2.map fun s => normFilePath s.1

theorem filter_allFiles_eq (resolveAbs : String → Option String)
    (L raw known : List String) :
    (filterDiffByPaths resolveAbs L raw known).allFiles =
      addAll (knownNorm known) (segPaths L) := by
  unfold filterDiffByPaths
  by_cases hsegs : (segmentDiff L).2 = []
  · simp [hsegs, segPaths, knownNorm, addAll]
  · simp [hsegs, segPaths, knownNorm, foldl_segStep_allFiles]

theorem filter_excludedFiles_eq (resolveAbs : String → Option String)
    (L raw known : List String) :
    (filterDiffByPaths resolveAbs L raw known).excludedFiles =
      addAll
        (addAll [] ((knownNorm known).filter fun f =>
          shouldExcludeFile f (buildExclusionList resolveAbs raw)))
        ((segPaths L).filter fun f =>
          shouldExcludeFile f (buildExclusionList resolveAbs raw)) := by
  unfold filterDiffByPaths
  by_cases hsegs : (segmentDiff L).2 = []
  · simp [hsegs, segPaths, knownNorm, addAll]
  · simp [hsegs, segPaths, knownNorm, foldl_segStep_excludedFiles]

theorem filter_includedFiles_eq (resolveAbs : String → Option String)
    (L raw known : List String) :
    (filterDiffByPaths resolveAbs L raw known).includedFiles =
      if addAll
          (addAll [] ((knownNorm known).filter fun f =>
            !shouldExcludeFile f (buildExclusionList resolveAbs raw)))
          ((segPaths L).filter fun f =>
            !shouldExcludeFile f (buildExclusionList resolveAbs raw)) = [] then
        addAll (knownNorm known) (segPaths L)
      else
        addAll
          (addAll [] ((knownNorm known).filter fun f =>
            !shouldExcludeFile f (buildExclusionList resolveAbs raw)))
          ((segPaths L).filter fun f =>
            !shouldExcludeFile f (buildExclusionList resolveAbs raw)) := by
  unfold filterDiffByPaths
  by_cases hsegs : (segmentDiff L).2 = []
  · simp [hsegs, segPaths, knownNorm, addAll]
  · simp [hsegs, segPaths, knownNorm, foldl_segStep_includedFiles,
      foldl_segStep_allFiles]

theorem mem_classify (p : String → Bool) (K P : List String) (f : String) :
    f ∈ addAll (addAll [] (K.filter p)) (P.filter p) ↔
      f ∈ addAll K P ∧ p f = true := by
  rw [mem_addAll, mem_addAll, mem_addAll]
  simp only [List.not_mem_nil, false_or, List.mem_filter]
  tauto

/-- **C2 (amended).** Classification of `allFiles` into included/excluded:
a file of `allFiles` is in `excludedFiles` iff it matches some exclusion
rule; when at least one file of `allFiles` matches no rule, `includedFiles`
is exactly the non-matching files of `allFiles`; but when every file of
`allFiles` matches a rule, `includedFiles` falls back to the whole
`allFiles` list (the source returns `allFiles` whenever the included set is
empty), so included/excluded partition `allFiles` only in the first case.
In the scenario with rule set `["vendor"]` and a diff touching
`vendor/lib.go` and `main.go`, `includedFiles = ["main.go"]` and
`excludedFiles = ["vendor/lib.go"]` (see the witness). -/
theorem filter_classifies_files (resolveAbs : String → Option String)
    (L raw known : List String) :
    (∀ f, f ∈ (filterDiffByPaths resolveAbs L raw known).excludedFiles ↔
      f ∈ (filterDiffByPaths resolveAbs L raw known).allFiles ∧
        shouldExcludeFile f (buildExclusionList resolveAbs raw) = true) ∧
    ((∃ f, f ∈ (filterDiffByPaths resolveAbs L raw known).allFiles ∧
        shouldExcludeFile f (buildExclusionList resolveAbs raw) = false) →
      ∀ f, f ∈ (filterDiffByPaths resolveAbs L raw known).includedFiles ↔
        f ∈ (filterDiffByPaths resolveAbs L raw known).allFiles ∧
          shouldExcludeFile f (buildExclusionList resolveAbs raw) = false) ∧
    ((∀ f ∈ (filterDiffByPaths resolveAbs L raw known).allFiles,
        shouldExcludeFile f (buildExclusionList resolveAbs raw) = true) →
      (filterDiffByPaths resolveAbs L raw known).includedFiles =
        (filterDiffByPaths resolveAbs L raw known).allFiles) := by
  have hmemI : ∀ f, f ∈ addAll
      (addAll [] ((knownNorm known).filter fun g =>
        !shouldExcludeFile g (buildExclusionList resolveAbs raw)))
      ((segPaths L).filter fun g =>
        !shouldExcludeFile g (buildExclusionList resolveAbs raw)) ↔
      f ∈ addAll (knownNorm known) (segPaths L) ∧
        shouldExcludeFile f (buildExclusionList resolveAbs raw) = false := by
    intro f
    rw [mem_classify]
    simp [Bool.not_eq_true']
  refine ⟨?_, ?_, ?_⟩
  · intro f
    rw [filter_excludedFiles_eq, filter_allFiles_eq]
    exact mem_classify _ _ _ f
  · intro hx f
    rw [filter_includedFiles_eq, filter_allFiles_eq]
    rw [filter_allFiles_eq] at hx
    obtain ⟨g, hgA, hgp⟩ := hx
    have hne : addAll
        (addAll [] ((knownNorm known).filter fun g =>
          !shouldExcludeFile g (buildExclusionList resolveAbs raw)))
        ((segPaths L).filter fun g =>
          !shouldExcludeFile g (buildExclusionList resolveAbs raw)) ≠ [] := by
      intro hnil
      have : g ∈ ([] : List String) := hnil ▸ (hmemI g).mpr ⟨hgA, hgp⟩
      simp at this
    rw [if_neg hne]
    exact hmemI f
  · intro hall
    rw [filter_includedFiles_eq, filter_allFiles_eq]
    rw [filter_allFiles_eq] at hall
    have hnil : addAll
        (addAll [] ((knownNorm known).filter fun g =>
          !shouldExcludeFile g (buildExclusionList resolveAbs raw)))
        ((segPaths L).filter fun g =>
          !shouldExcludeFile g (buildExclusionList resolveAbs raw)) = [] := by
      rw [List.eq_nil_iff_forall_not_mem]
      intro f hf
      obtain ⟨hfA, hfp⟩ := (hmemI f).mp hf
      rw [hall f hfA] at hfp
      simp at hfp
    rw [if_pos hnil]

/-- Witness for C2 (amended) at the spec's scenario: rule set `["vendor"]`,
diff touching `vendor/lib.go` and `main.go` — the classification holds and
the resulting lists are `["main.go"]` / `["vendor/lib.go"]`. -/
theorem filter_classifies_files_witness :
    ("main.go" ∈ (filterDiffByPaths (fun _ => none)
        ["diff --git a/vendor/lib.go b/vendor/lib.go", "+x",
         "diff --git a/main.go b/main.go", "+y"]
        ["vendor"] ["vendor/lib.go", "main.go"]).includedFiles ↔
      "main.go" ∈ (filterDiffByPaths (fun _ => none)
        ["diff --git a/vendor/lib.go b/vendor/lib.go", "+x",
         "diff --git a/main.go b/main.go", "+y"]
        ["vendor"] ["vendor/lib.go", "main.go"]).allFiles ∧
        shouldExcludeFile "main.go" (buildExclusionList (fun _ => none) ["vendor"]) = false) ∧
    (filterDiffByPaths (fun _ => none)
        ["diff --git a/vendor/lib.go b/vendor/lib.go", "+x",
         "diff --git a/main.go b/main.go", "+y"]
        ["vendor"] ["vendor/lib.go", "main.go"]).includedFiles = ["main.go"] ∧
    (filterDiffByPaths (fun _ => none)
        ["diff --git a/vendor/lib.go b/vendor/lib.go", "+x",
         "diff --git a/main.go b/main.go", "+y"]
        ["vendor"] ["vendor/lib.go", "main.go"]).excludedFiles = ["vendor/lib.go"] := by
  refine ⟨?_, by decide, by decide⟩
  exact (filter_classifies_files (fun _ => none)
    ["diff --git a/vendor/lib.go b/vendor/lib.go", "+x",
     "diff --git a/main.go b/main.go", "+y"]
    ["vendor"] ["vendor/lib.go", "main.go"]).2.1
    ⟨"main.go", by decide, by decide⟩ "main.go"

/-- **C2 (counterexample).** The partition claim fails when every file
matches a rule: with rule set `["vendor"]` and a diff touching only
`vendor/lib.go`, the file matches the rule yet is returned in
`includedFiles` (the source falls back to `allFiles` when the included set
is empty), so membership in `includedFiles` does not imply matching no
rule. -/
theorem filter_partition_counterexample :
    shouldExcludeFile "vendor/lib.go" (buildExclusionList (fun _ => none) ["vendor"]) = true ∧
    "vendor/lib.go" ∈ (filterDiffByPaths (fun _ => none)
        ["diff --git a/vendor/lib.go b/vendor/lib.go", "+x"]
        ["vendor"] []).includedFiles ∧
    (filterDiffByPaths (fun _ => none)
        ["diff --git a/vendor/lib.go b/vendor/lib.go", "+x"]
        ["vendor"] []).excludedFiles = ["vendor/lib.go"] := by decide

theorem segmentDiff_flatten (T : List String) (hT : ∀ l ∈ T, headerPath l = none) :
    ∀ segs : List (String × List String), (∀ s ∈ segs, SegWF s) → segs ≠ [] →
      segmentDiff ((segs.map Prod.snd).flatten ++ T) = ([], extendLast T segs)
  | [], _, hne => absurd rfl hne
  | [s], hwf, _ => by
    obtain ⟨h, t, hst, hh, ht⟩ := hwf s (by simp)
    rw [show ((([s] : List (String × List String)).map Prod.snd).flatten : List String)
        = s.2 by simp]
    rw [hst, segmentDiff_block t T hh ht, segmentDiff_headerless T hT]
    simp [extendLast, hst]
  | s :: s2 :: rest, hwf, _ => by
    obtain ⟨h, t, hst, hh, ht⟩ := hwf s (by simp)
    have ih := segmentDiff_flatten T hT (s2 :: rest)
      (fun x hx => hwf x (List.mem_cons_of_mem s hx)) (by simp)
    rw [show ((((s :: s2 :: rest) : List (String × List String)).map Prod.snd).flatten
          ++ T : List String)
        = (h :: t) ++ ((((s2 :: rest) : List (String × List String)).map Prod.snd).flatten
          ++ T) by simp [hst, List.append_assoc]]
    rw [segmentDiff_block t _ hh ht, ih]
    have hs : (s.1, h :: (t ++ ([] : List String))) = s := by
      rw [List.append_nil, ← hst]
    rw [hs]
    simp [extendLast]

/-- Refiltering a text of the shape the filter emits (headerless preamble,
blocks of non-matching well-formed segments, headerless tail) returns it
unchanged. -/
theorem refilter_fixed (resolveAbs : String → Option String) (raw known : List String)
    (hex : buildExclusionList resolveAbs raw ≠ [])
    (P : List String) (hP : ∀ l ∈ P, headerPath l = none)
    (F : List (String × List String)) (hwf : ∀ s ∈ F, SegWF s)
    (hpred : ∀ s ∈ F,
      shouldExcludeFile (normFilePath s.1) (buildExclusionList resolveAbs raw) = false)
    (M : List String) (hM : ∀ l ∈ M, headerPath l = none) :
    (filterDiffByPaths resolveAbs (P ++ (F.map Prod.snd).flatten ++ M) raw known).text
      = P ++ (F.map Prod.snd).flatten ++ M := by
  by_cases hFnil : F = []
  · subst hFnil
    simp only [List.map_nil, List.flatten_nil, List.append_nil]
    have hPM : ∀ l ∈ P ++ M, headerPath l = none := by
      intro l hl
      rcases List.mem_append.mp hl with hl | hl
      · exact hP l hl
      · exact hM l hl
    have hsd := segmentDiff_headerless (P ++ M) hPM
    have h2 := filter_text_eq resolveAbs (P ++ M) raw known
    rw [if_neg hex, hsd] at h2
    simpa using h2
  · have hflat := segmentDiff_flatten M hM F hwf hFnil
    have hsd : segmentDiff (P ++ ((F.map Prod.snd).flatten ++ M))
        = (P, extendLast M F) := by
      rw [segmentDiff_append_no_header P hP, hflat]
      simp
    have h2 := filter_text_eq resolveAbs (P ++ (F.map Prod.snd).flatten ++ M) raw known
    rw [if_neg hex] at h2
    rw [show (P ++ (F.map Prod.snd).flatten ++ M : List String)
        = P ++ ((F.map Prod.snd).flatten ++ M) from List.append_assoc P _ M] at h2
    rw [hsd] at h2
    have hall : ∀ s ∈ extendLast M F,
        (!shouldExcludeFile (normFilePath s.1) (buildExclusionList resolveAbs raw)) = true := by
      intro s hs
      have hfst : s.1 ∈ (extendLast M F).map Prod.fst := List.mem_map_of_mem Prod.fst hs
      rw [extendLast_fst] at hfst
      obtain ⟨s0, hs0, hfeq⟩ := List.mem_map.mp hfst
      rw [← hfeq]
      simp [hpred s0 hs0]
    rw [List.filter_eq_self.mpr hall] at h2
    rw [extendLast_flatten M F hFnil] at h2
    obtain ⟨a, b, ha, hb, hab⟩ := extendLast_getLast_fst M F hFnil
    have hbex : shouldExcludeFile (normFilePath b.1) (buildExclusionList resolveAbs raw)
        = false := by
      rw [hab]
      exact hpred a (List.mem_of_mem_getLast? ha)
    have hmarker : (match (extendLast M F).getLast? with
        | some s =>
          if shouldExcludeFile (normFilePath s.1) (buildExclusionList resolveAbs raw)
          then [""] else []
        | none => ([] : List String)) = [] := by
      rw [hb]
      simp [hbex]
    rw [hmarker] at h2
    simpa [List.append_assoc] using h2

/-- **C4.** Filtering is idempotent: applying the filter with the same rule
set (and workspace resolution) to the text produced by a previous
application returns that text unchanged. -/
theorem filter_idempotent (resolveAbs : String → Option String)
    (L raw known : List String) :
    (filterDiffByPaths resolveAbs
        (filterDiffByPaths resolveAbs L raw known).text raw known).text
      = (filterDiffByPaths resolveAbs L raw known).text := by
  by_cases hex : buildExclusionList resolveAbs raw = []
  · have h1 := filter_text_eq resolveAbs L raw known
    rw [if_pos hex] at h1
    have h2 := filter_text_eq resolveAbs
      (filterDiffByPaths resolveAbs L raw known).text raw known
    rw [if_pos hex] at h2
    rw [h2, h1]
  · have h1 := filter_text_eq resolveAbs L raw known
    rw [if_neg hex] at h1
    rw [h1]
    apply refilter_fixed resolveAbs raw known hex
    · exact segmentDiff_pre_no_header L
    · exact fun s hs => segmentDiff_segs_wf L s (List.mem_filter.mp hs).1
    · intro s hs
      have := (List.mem_filter.mp hs).2
      simpa using this
    · intro l hl
      cases hlast : (segmentDiff L).2.getLast? with
      | none => rw [hlast] at hl; simp at hl
      | some s =>
        rw [hlast] at hl
        by_cases hc : shouldExcludeFile (normFilePath s.1) (buildExclusionList resolveAbs raw)
          = true
        · simp only [hc, if_true, List.mem_singleton] at hl
          subst hl
          decide
        · simp [hc] at hl

/-- `DEFAULT_CHECKLIST` (`extension.ts:88`). -/
def DEFAULT_CHECKLIST : String :=
  "# 默认检查清单\n\n- [ ] 关键业务路径是否包含充分的单元或集成测试？\n- [ ] 是否存在潜在的空指针 / 异常未处理？\n- [ ] 重要配置或边界条件是否有防御性校验？\n- [ ] 异常或日志信息是否足够诊断问题？\n- [ ] 是否有潜在的性能或并发隐患需要进一步评估？\n"

/-- One checklist document: label (the original reference string) and
capped content. -/
structure ChecklistDoc where
  label : String
  content : TextChunk
deriving DecidableEq, Repr

/-- `loadChecklistFiles` (`extension.ts:226`): resolve each reference
(`resolvePath` abstracts absolute-or-workspace-join), skip blank entries
and unreadable files (`fsRead` returns `none`), cap each readable file. -/
def loadChecklistFiles (fsRead : String → Option String)
    (resolvePath : String → String) : List String → List ChecklistDoc
  | [] => []
  | raw :: rest =>
    let filePath := jsTrim raw
    if filePath = "" then loadChecklistFiles fsRead resolvePath rest
    else
      match fsRead (resolvePath filePath) with
      | some content =>
        { label := filePath, content := limitText content MAX_CHECKLIST_CHARS } ::
          loadChecklistFiles fsRead resolvePath rest
      | none => loadChecklistFiles fsRead resolvePath rest

/-- The checklist documents the handler uses (`extension.ts:404`–`:420`):
the configured files when any are configured, otherwise the single built-in
default document. -/
def checklistChunksFor (fsRead : String → Option String)
    (resolvePath : String → String) (checklistFiles : List String) : List ChecklistDoc :=
  if checklistFiles = [] then
    [{ label := "默认检查清单", content := limitText DEFAULT_CHECKLIST MAX_CHECKLIST_CHARS }]
  else loadChecklistFiles fsRead resolvePath checklistFiles

/-- **C7.** Checklist aggregation: an empty reference list yields exactly
one document with the fixed default label and built-in body (unflagged, as
the body is below the cap); a non-empty list yields, in input order, one
document per readable entry (blank and unreadable entries are skipped,
never fatal), each independently capped with the truncated flag set iff
the source exceeded the cap. -/
theorem checklist_aggregation_spec (fsRead : String → Option String)
    (resolvePath : String → String) (files : List String) :
    (files = [] →
      checklistChunksFor fsRead resolvePath files =
        [{ label := "默认检查清单", content := { text := DEFAULT_CHECKLIST, truncated := false } }]) ∧
    (files ≠ [] →
      checklistChunksFor fsRead resolvePath files =
        files.filterMap fun raw =>
          if jsTrim raw = "" then none
          else (fsRead (resolvePath (jsTrim raw))).map fun content =>
            { label := jsTrim raw, content := limitText content MAX_CHECKLIST_CHARS }) ∧
    (∀ d ∈ checklistChunksFor fsRead resolvePath files,
      d.content.truncated = true → MAX_CHECKLIST_CHARS < d.content.text.length + 1) := by
  have hload : ∀ fs : List String,
      loadChecklistFiles fsRead resolvePath fs =
        fs.filterMap fun raw =>
          if jsTrim raw = "" then none
          else (fsRead (resolvePath (jsTrim raw))).map fun content =>
            { label := jsTrim raw, content := limitText content MAX_CHECKLIST_CHARS } := by
    intro fs
    induction fs with
    | nil => rfl
    | cons raw rest ih =>
      rw [List.filterMap_cons]
      by_cases hb : jsTrim raw = ""
      · simp [loadChecklistFiles, hb, ih]
      · simp only [loadChecklistFiles, if_neg hb, ih]
        cases h : fsRead (resolvePath (jsTrim raw)) <;> simp [h, hb]
  have hlen : DEFAULT_CHECKLIST.length ≤ MAX_CHECKLIST_CHARS := by decide
  refine ⟨?_, ?_, ?_⟩
  · intro hnil
    subst hnil
    simp [checklistChunksFor, limitText_of_le hlen]
  · intro hne
    rw [checklistChunksFor, if_neg hne, hload]
  · intro d hd htr
    have hlim : ∀ content : String,
        d.content = limitText content MAX_CHECKLIST_CHARS →
          d.content.truncated = true → MAX_CHECKLIST_CHARS < d.content.text.length + 1 := by
      intro content hc ht
      by_cases hle : content.length ≤ MAX_CHECKLIST_CHARS
      · rw [limitText_of_le hle] at hc
        rw [hc] at ht
        simp at ht
      · have hgt := Nat.not_le.mp hle
        rw [limitText_of_gt hgt] at hc
        rw [hc]
        show MAX_CHECKLIST_CHARS < (List.take MAX_CHECKLIST_CHARS content.data).length + 1
        have : (List.take MAX_CHECKLIST_CHARS content.data).length = MAX_CHECKLIST_CHARS := by
          have hle2 : MAX_CHECKLIST_CHARS ≤ content.data.length := Nat.le_of_lt hgt
          simp only [List.length_take]
          omega
        omega
    unfold checklistChunksFor at hd
    split at hd
    · simp only [List.mem_singleton] at hd
      subst hd
      rw [limitText_of_le hlen] at htr
      simp at htr
    · rw [hload] at hd
      obtain ⟨raw, _, hmap⟩ := List.mem_filterMap.mp hd
      split at hmap
      · simp at hmap
      · obtain ⟨content, _, hc⟩ := Option.map_eq_some'.mp hmap
        exact hlim content (by rw [← hc]) htr

/-- Witness for C7 at the spec's scenario D: references
`["a.md", "missing.md"]` with `missing.md` unreadable — the output contains
only the document for `a.md`, and the empty-reference case yields the
default document. -/
theorem checklist_aggregation_spec_witness :
    checklistChunksFor
        (fun p => if p = "/ws/a.md" then some "hello" else none)
        (fun f => "/ws/" ++ f) ["a.md", "missing.md"] =
      [{ label := "a.md", content := { text := "hello", truncated := false } }] ∧
    checklistChunksFor
        (fun p => if p = "/ws/a.md" then some "hello" else none)
        (fun f => "/ws/" ++ f) [] =
      [{ label := "默认检查清单",
         content := { text := DEFAULT_CHECKLIST, truncated := false } }] := by
  constructor
  · have h := (checklist_aggregation_spec
      (fun p => if p = "/ws/a.md" then some "hello" else none)
      (fun f => "/ws/" ++ f) ["a.md", "missing.md"]).2.1 (by decide)
    rw [h]
    decide
  · exact (checklist_aggregation_spec
      (fun p => if p = "/ws/a.md" then some "hello" else none)
      (fun f => "/ws/" ++ f) []).1 rfl

/-- `CPP_FILE_EXTENSIONS` (`extension.ts:12`). -/
def CPP_FILE_EXTENSIONS : List String :=
  [".cc", ".cpp", ".cxx", ".h", ".hh", ".hpp", ".hxx"]

/-- `CPP_REVIEW_GUIDELINES` (`extension.ts:13`), verbatim. -/
def CPP_REVIEW_GUIDELINES : String :=
  "# Role: C++ Code Reviewer\n\n## Profile\n- Author: C++ Expert\n- Version: 1.0\n- Language: English\n- Description: A meticulous C++ code reviewer specialized in identifying potential risks, design considerations, and promoting modern C++ best practices for high-performance computing environments.\n\n## Skills\n- Deep understanding of C++ memory management mechanisms including manual allocation, RAII, and smart pointers\n- Expert knowledge in multithreaded programming and concurrent data structures\n- Proficiency in modern C++ standards (C++17/20/23) and their safety features\n- Strong analytical abilities to identify potential runtime issues in complex codebases\n- Clear communication skills to explain technical issues and recommend improvements\n- Experience with performance optimization techniques for C++ applications\n\n## Goals:\n- Thoroughly analyze provided C++ code for memory safety vulnerabilities\n- Identify potential thread safety issues in multithreaded environments\n- Detect design flaws related to context management, especially in single-threaded callback scenarios\n- Detect incorrect or ineffective control logic\n- Evaluate code against modern C++ best practices and design patterns\n- Provide detailed, structured feedback on identified issues with clear explanations\n- Suggest specific improvements to enhance code safety, performance, and maintainability\n\n## Issue Severity Levels\n- **Critical**: Code that may cause crashes, memory corruption, security vulnerabilities, or undefined behavior. Must be fixed immediately.\n- **Major**: Code that may lead to performance degradation, thread-safety issues, or maintainability concerns. Should be addressed before merging.\n- **Minor**: Style issues, non-critical optimizations, or improvements that can be deferred.\n\n## Rules:\n- Focus analysis specifically on memory safety, thread safety, control logic, design flaw and modern C++ best practices\n- The **Solution** for each issue MUST align with the defined **Remediation Strategy**.\n- Provide **concrete examples** and explanations rather than vague criticisms. Ensure all comments are precise and well-supported.\n- Maintain a professional, technical tone throughout the review.\n- Below **Memory Safety** issues MUST be flagged as **Critical** severity:\n  - Any cases that could lead to memory corruption, crashes or exceptions (e.g., buffer overflows, invalid memory access, use-after-free, double free, memory leaks, dangling pointers or references, etc.)\n  - Any implicit assumptions that could lead to undefined behavior or unsafe access patterns\n- **Do NOT** flag ordering dependencies in constructors or setup functions like `setUp`, even if calls must happen in sequence. Assume correctness unless there is evidence of race conditions or external non-determinism.\n- **DO NOT** recommend synchronization (e.g., mutex or atomic) for variable access in clearly single-threaded contexts where race conditions are impossible.\n- Avoid speculative assumptions about the multithreading or concurrency execution context **unless** there is concrete evidence in the code or documentation (e.g. [multithreaded] tagged).\n- Base all **Thread Safety** analysis on concrete, observable evidence — speculative or hypothetical concerns are **NOT Allowed**.\n- All **Queue** objects (e.g., `SyncTaskQueue`, `MessageQueue` etc.) are **thread-safe** by design, and their internal state is **always consistent** when accessed through their public APIs.\n- If a member variable is initialized during construction (e.g., via constructor body or initializer list), **Do NOT** comment on potential null pointer dereference or validity checks when that variable is used later, unless there is evidence of reassignment or lifetime mismatch. Assume the constructor guarantees its validity.\n\n## Review Workflow:\n1. Carefully analyze the given C++ code. Break it into logical segments (or by provided functions), and for each part:\n2. Document your thought process in a detailed, stream-of-consciousness style.\n3. Examine the code for **Memory Safety** issues. Specifically, identify:\n4. Analyze the code for **Thread Safety** concerns. In particular, identify and explain:\n5. Merge all valid review comments into a consolidated output.\n6. Organize findings into a structured review following the specified format, clearly separating the thinking process from the formal review.\n7. Provide specific, actionable recommendations for each identified issue, explaining both the problem and potential solutions.\n8. For each comments, please mark it as [Critical],[Major],[Minor] at the begining of the comment message.\n\n## Remediation Strategy\n- Propose hierarchical fixes: immediate mitigation → proper resolution → ideal implementation\n- Include complete Before/After code examples using standard C++ idioms\n- Explain solution rationale with references to language features or design patterns\n- Ensure that all potential side effects of the proposed changes are thoroughly considered and explicitly addressed\n- For complex issues (e.g., related to Design of Context Management), provide a clear, complete, working solution\n- Prioritize issues by severity within their category and focus on concrete, actionable recommendations"

/-- One line matched against `/^\+\+\+ b\/(.+)$/` with the file path taken
up to the first tab (`extension.ts:285`–`:292`). -/
def cppHeaderFile (l : String) : Option String :=
  if ("+++ b/".data.isPrefixOf l.data) && decide (6 < l.data.length) then
    some ((splitOnChar '\t' ⟨l.data.drop 6⟩).headD "")
  else none

/-- `diffContainsCppChanges` (`extension.ts:285`). -/
def diffContainsCppChanges (diffText : String) : Bool :=
  (toLines diffText).any fun l =>
    match cppHeaderFile l with
    | some filePath =>
      filePath != "/dev/null" &&
        CPP_FILE_EXTENSIONS.any fun ext => strEndsWith filePath ext
    | none => false

/-- The fixed output-format sections (`extension.ts:455`–`:465`). -/
def promptFormatSections : List String :=
  [ "输出格式：HTML（使用 <table> 列出 file/line/severity/message；line 为实际代码行号的整数；severity 独立字段，取值 ERROR/WARN/INFO，不要在 message 再带 [ERROR] 这类前缀）。"
  , "示例："
  , "```html"
  , "<table>"
  , "  <tr><th>file</th><th>line</th><th>severity</th><th>message</th></tr>"
  , "  <tr><td>src/foo.ts</td><td>42</td><td>ERROR</td><td>描述...</td></tr>"
  , "</table>"
  , "```"
  , "没有问题时请返回一个简单的 HTML 段落，如 `<p>No issues found</p>`，并继续重点关注潜在缺陷、风险及遗漏的测试。" ]

/-- The sections pushed for one checklist document (`extension.ts:438`). -/
def checklistSections (item : ChecklistDoc) : List String :=
  ("文件 " ++ item.label ++ "：") :: "```markdown" :: item.content.text :: "```" ::
    (if item.content.truncated then ["（检查清单内容已截断，超出部分未包含）"] else [])

/-- The ordered prompt sections (`extension.ts:422`–`:465`). -/
def promptSections (diffText : String) (truncated : Bool)
    (checklists : List ChecklistDoc) : List String :=
  "你是一名资深且严谨的代码审查专家，需要针对最新一次提交给出结构化 JSON 反馈。" ::
  "请审查最新一次 Git 提交（`git diff HEAD~1`）并以 JSON 返回审查结果。" ::
    ((if diffContainsCppChanges diffText then
        ["若 Diff 中包含 C++ 文件，请默认遵循以下审查标准：", CPP_REVIEW_GUIDELINES]
      else []) ++
     ("Diff 如下：" :: "```diff" :: diffText :: "```" ::
      ((if checklists = [] then []
        else "以下是需要优先关注的审查检查清单：" ::
          (checklists.map checklistSections).flatten) ++
       ((if truncated then ["（Diff 仅包含前 60000 个字符）"] else []) ++
        promptFormatSections))))

/-- The single prompt string sent to the model: `sections.join('\n\n')`
(`extension.ts:467`). -/
def buildPrompt (diffText : String) (truncated : Bool)
    (checklists : List ChecklistDoc) : String :=
  joinSep "\n\n" (promptSections diffText truncated checklists)

theorem joinSep_contains (sep : String) :
    ∀ (xs : List String), ∀ x ∈ xs,
      ∃ p q : List Char, (joinSep sep xs).data = p ++ x.data ++ q
  | [], x, hx => by simp at hx
  | [y], x, hx => by
    simp only [List.mem_singleton] at hx
    subst hx
    exact ⟨[], [], by simp [joinSep]⟩
  | y :: y2 :: ys, x, hx => by
    have hdata : (joinSep sep (y :: y2 :: ys)).data
        = y.data ++ sep.data ++ (joinSep sep (y2 :: ys)).data := by
      show (y ++ sep ++ joinSep sep (y2 :: ys)).data = _
      rw [String.data_append, String.data_append]
    rcases List.mem_cons.mp hx with rfl | hx
    · exact ⟨[], sep.data ++ (joinSep sep (y2 :: ys)).data, by
        rw [hdata]; simp [List.append_assoc]⟩
    · obtain ⟨p, q, hpq⟩ := joinSep_contains sep (y2 :: ys) x hx
      exact ⟨y.data ++ sep.data ++ p, q, by
        rw [hdata, hpq]; simp [List.append_assoc]⟩

theorem mem_promptSections (diffText : String) (truncated : Bool)
    (checklists : List ChecklistDoc) :
    diffText ∈ promptSections diffText truncated checklists := by
  unfold promptSections
  refine List.mem_cons_of_mem _ (List.mem_cons_of_mem _ (List.mem_append_right _ ?_))
  exact List.mem_cons_of_mem _ (List.mem_cons_of_mem _ (List.mem_cons_self _ _))

theorem buildPrompt_contains (diffText : String) (truncated : Bool)
    (checklists : List ChecklistDoc) :
    ∃ p q : List Char,
      (buildPrompt diffText truncated checklists).data = p ++ diffText.data ++ q :=
  joinSep_contains "\n\n" _ diffText (mem_promptSections diffText truncated checklists)

/-- `loadGitDiff` (`extension.ts:251`): trim the command output, return an
empty unflagged chunk when nothing remains, otherwise cap at
`MAX_DIFF_CHARS`; a command failure becomes the prefixed error message. -/
def loadGitDiffM : Except String String → Except String TextChunk
  | .error msg => .error ("无法获取 Git diff：" ++ msg)
  | .ok stdout =>
    let diff := jsTrim stdout
    if diff = "" then .ok { text := "", truncated := false }
    else .ok (limitText diff MAX_DIFF_CHARS)

/-- The parsing of `git diff --name-only` output (`extension.ts:274`). -/
def parseNameOnly (stdout : String) : List String :=
  (((toLines stdout).map jsTrim).filter fun l => l != "").map normFilePath

/-- `loadDiffFileList` (`extension.ts:268`). -/
def loadDiffFileListM : Except String String → Except String (List String)
  | .error msg => .error ("无法获取 Git diff 文件列表：" ++ msg)
  | .ok stdout => .ok (parseNameOnly stdout)

/-- The distinct terminal outcomes of one handler invocation. -/
inductive Outcome where
  | noWorkspace
  | extractionFailure
  | noChanges
  | engineFailure
  | completed
deriving DecidableEq, Repr

/-- The manifest artifact payload (`extension.ts:373`). -/
structure Manifest where
  generatedAt : String
  workspace : String
  allFiles : List String
  includedFiles : List String
  excludedFiles : List String
deriving DecidableEq, Repr

/-- The external world of one handler invocation: configuration, the two
VCS command results, the abstract path/filesystem services, the clock and
artifact destinations, the write results (`none` = success, `some e` =
failure with message `e`) and the engine's (fully concatenated) streamed
response. -/
structure ReviewerInput where
  workspace : Option String
  excludePaths : List String
  checklistFiles : List String
  gitDiff : Except String String
  gitFiles : Except String String
  resolveAbs : String → Option String
  resolvePath : String → String
  fsRead : String → Option String
  now : String
  manifestPath : String
  reportPath : String
  manifestWriteErr : Option String
  reportWriteErr : Option String
  modelResponse : Except String String

/-- What happens after the manifest step: the further stream messages, the
request (if any), the report write attempt and the outcome. -/
structure ReviewTail where
  stream : List String
  requestSent : Option String
  reportAttempt : Option String
  reportWritten : Bool
  outcome : Outcome

/-- The observable trace of one handler invocation.  `stream` is the
ordered list of user-visible chat messages (`stream.markdown` calls);
`logs` models the developer-console `log` calls a claim depends on. -/
structure ReviewerTrace where
  stream : List String
  logs : List String
  manifestAttempt : Option Manifest
  manifestWritten : Bool
  requestSent : Option String
  reportAttempt : Option String
  reportWritten : Bool
  outcome : Outcome

/-- The per-file bullet list used by the summary markdown. -/
def fileBullets (files : List String) : String :=
  joinSep "\n" (files.map fun f => "- " ++ f)

/-- The diff-overview markdown (`extension.ts:360`). -/
def summaryMarkdown (fd : DiffFilterResult) : String :=
  joinSep "\n"
    [ "### Diff 文件概览"
    , "- 总文件数：" ++ toString fd.allFiles.length
    , "- 参与审查（" ++ toString fd.includedFiles.length ++ "）："
    , if fd.includedFiles = [] then "- （无）" else fileBullets fd.includedFiles
    , "- 已排除（" ++ toString fd.excludedFiles.length ++ "）："
    , if fd.excludedFiles = [] then "- （无）" else fileBullets fd.excludedFiles ]

/-- The handler from the empty-diff check onwards (`extension.ts:395`–`:497`):
the no-changes early return, checklist loading, the single model request,
and the report write attempt. -/
def reviewTail (inp : ReviewerInput) (prepared : String) (truncated : Bool) : ReviewTail :=
  if jsTrim prepared = "" then
    { stream := [if inp.excludePaths = [] then
        "未检测到最近一次提交的差异，请确认有新的更改后再试。"
      else "未检测到有效差异：所有更改都匹配 swartzCodeReview.excludePaths 配置。"]
    , requestSent := none, reportAttempt := none, reportWritten := false
    , outcome := .noChanges }
  else
    let clStream := if inp.checklistFiles = [] then
        ["未配置检查清单，已加载默认检查清单。"]
      else [joinSep "\n" ("将加载以下检查清单：" :: inp.checklistFiles.map fun f => "- " ++ f)]
    let chunks := checklistChunksFor inp.fsRead inp.resolvePath inp.checklistFiles
    let prompt := buildPrompt prepared truncated chunks
    match inp.modelResponse with
    | .error e =>
      { stream := clStream ++ ["无法完成审查：" ++ e]
      , requestSent := some prompt, reportAttempt := none, reportWritten := false
      , outcome := .engineFailure }
    | .ok html =>
      match inp.reportWriteErr with
      | none =>
        { stream := clStream ++ ["审查完成，报告已保存：`" ++ inp.reportPath ++ "`"]
        , requestSent := some prompt, reportAttempt := some html, reportWritten := true
        , outcome := .completed }
      | some e =>
        { stream := clStream ++ ["审查生成成功，但保存文件失败：" ++ e]
        , requestSent := some prompt, reportAttempt := some html, reportWritten := false
        , outcome := .completed }

/-- The successful-extraction path (`extension.ts:343`–`:393`): filtering,
the overview message, the manifest write attempt, then `reviewTail`. -/
def reviewerMain (inp : ReviewerInput) (w : String) (diffChunk : TextChunk)
    (diffFiles : List String) : ReviewerTrace :=
  let fd := filterDiffByPaths inp.resolveAbs (toLines diffChunk.text)
    inp.excludePaths diffFiles
  let overview := if fd.allFiles = [] then
      "未能解析出 diff 文件列表，请确认最近一次提交包含文件变更。"
    else summaryMarkdown fd
  let manifest : Manifest :=
    { generatedAt := inp.now, workspace := w, allFiles := fd.allFiles
    , includedFiles := fd.includedFiles, excludedFiles := fd.excludedFiles }
  let manStream := match inp.manifestWriteErr with
    | none => ["文件概览已保存到临时文件：`" ++ inp.manifestPath ++ "`"]
    | some _ => []
  let manLogs := match inp.manifestWriteErr with
    | none => []
    | some e => ["写入临时文件失败：" ++ e]
  let tail := reviewTail inp (joinLines fd.text) diffChunk.truncated
  { stream := overview :: (manStream ++ tail.stream)
  , logs := (if fd.excludedFiles = [] then []
      else ["根据配置排除了部分 diff 文件"]) ++ manLogs
  , manifestAttempt := some manifest
  , manifestWritten := inp.manifestWriteErr.isNone
  , requestSent := tail.requestSent
  , reportAttempt := tail.reportAttempt
  , reportWritten := tail.reportWritten
  , outcome := tail.outcome }

/-- The whole handler (`extension.ts:304`–`:498`), sequentialized: missing
workspace, then the two VCS commands (a failure of either surfaces its
message and aborts), then `reviewerMain`. -/
def reviewerModel (inp : ReviewerInput) : ReviewerTrace :=
  match inp.workspace with
  | none =>
    { stream := ["请先在 VS Code 中打开一个 Git 仓库再运行审查。"], logs := []
    , manifestAttempt := none, manifestWritten := false, requestSent := none
    , reportAttempt := none, reportWritten := false, outcome := .noWorkspace }
  | some w =>
    match loadGitDiffM inp.gitDiff with
    | .error msg =>
      { stream := [msg], logs := [], manifestAttempt := none, manifestWritten := false
      , requestSent := none, reportAttempt := none, reportWritten := false
      , outcome := .extractionFailure }
    | .ok diffChunk =>
      match loadDiffFileListM inp.gitFiles with
      | .error msg =>
        { stream := [msg], logs := [], manifestAttempt := none, manifestWritten := false
        , requestSent := none, reportAttempt := none, reportWritten := false
        , outcome := .extractionFailure }
      | .ok diffFiles => reviewerMain inp w diffChunk diffFiles

/-- The prepared diff text of an invocation: the capped raw diff filtered
by the exclusion rules (`extension.ts:343`, `:393`). -/
def preparedDiffOf (inp : ReviewerInput) : String :=
  match loadGitDiffM inp.gitDiff with
  | .ok c =>
    match loadDiffFileListM inp.gitFiles with
    | .ok files =>
      joinLines (filterDiffByPaths inp.resolveAbs (toLines c.text)
        inp.excludePaths files).text
    | .error _ => ""
  | .error _ => ""

/-- **C8.** For every invocation that reaches the review request, the
single prompt message sent to the engine contains the full prepared
(filtered, possibly truncated) diff text as one contiguous substring. -/
theorem reviewer_request_contains_prepared (inp : ReviewerInput) (p : String)
    (h : (reviewerModel inp).requestSent = some p) :
    ∃ pre post : List Char, p.data = pre ++ (preparedDiffOf inp).data ++ post := by
  cases hw : inp.workspace with
  | none =>
    have hreq : (reviewerModel inp).requestSent = none := by
      simp only [reviewerModel, hw]
    rw [hreq] at h
    simp at h
  | some w =>
    cases hd : loadGitDiffM inp.gitDiff with
    | error msg =>
      have hreq : (reviewerModel inp).requestSent = none := by
        simp only [reviewerModel, hw, hd]
      rw [hreq] at h
      simp at h
    | ok diffChunk =>
      cases hf : loadDiffFileListM inp.gitFiles with
      | error msg =>
        have hreq : (reviewerModel inp).requestSent = none := by
          simp only [reviewerModel, hw, hd, hf]
        rw [hreq] at h
        simp at h
      | ok diffFiles =>
        have hm : reviewerModel inp = reviewerMain inp w diffChunk diffFiles := by
          simp only [reviewerModel, hw, hd, hf]
        rw [hm] at h
        have hprep : preparedDiffOf inp =
            joinLines (filterDiffByPaths inp.resolveAbs (toLines diffChunk.text)
              inp.excludePaths diffFiles).text := by
          simp only [preparedDiffOf, hd, hf]
        rw [hprep]
        have hreq : (reviewerMain inp w diffChunk diffFiles).requestSent
            = (reviewTail inp
                (joinLines (filterDiffByPaths inp.resolveAbs (toLines diffChunk.text)
                  inp.excludePaths diffFiles).text) diffChunk.truncated).requestSent := rfl
        rw [hreq] at h
        unfold reviewTail at h
        by_cases he : jsTrim (joinLines (filterDiffByPaths inp.resolveAbs
            (toLines diffChunk.text) inp.excludePaths diffFiles).text) = ""
        · rw [if_pos he] at h
          simp at h
        · rw [if_neg he] at h
          have hp : p = buildPrompt
              (joinLines (filterDiffByPaths inp.resolveAbs (toLines diffChunk.text)
                inp.excludePaths diffFiles).text) diffChunk.truncated
              (checklistChunksFor inp.fsRead inp.resolvePath inp.checklistFiles) := by
            cases hr : inp.modelResponse with
            | error e =>
              rw [hr] at h
              simp at h
              exact h.symm
            | ok html =>
              rw [hr] at h
              cases hre : inp.reportWriteErr with
              | none => rw [hre] at h; simp at h; exact h.symm
              | some e => rw [hre] at h; simp at h; exact h.symm
          rw [hp]
          exact buildPrompt_contains _ _ _

/-- **C9.** When both VCS commands succeed but the diff output is empty,
the invocation ends with the distinct no-changes informational outcome: no
request is sent to the engine and no report write is attempted, but the
manifest is still attempted (and written when the write succeeds), with
empty `allFiles`. -/
theorem reviewer_empty_diff_no_changes (inp : ReviewerInput) (w s t : String)
    (hw : inp.workspace = some w) (hgit : inp.gitDiff = .ok s) (hs : jsTrim s = "")
    (hfiles : inp.gitFiles = .ok t) (ht : parseNameOnly t = []) :
    (reviewerModel inp).requestSent = none ∧
    (reviewerModel inp).reportAttempt = none ∧
    (reviewerModel inp).outcome = .noChanges ∧
    (reviewerModel inp).manifestAttempt =
      some { generatedAt := inp.now, workspace := w, allFiles := []
           , includedFiles := [], excludedFiles := [] } ∧
    (inp.manifestWriteErr = none → (reviewerModel inp).manifestWritten = true) := by
  have hgd : loadGitDiffM inp.gitDiff = .ok { text := "", truncated := false } := by
    rw [hgit]
    simp [loadGitDiffM, hs]
  have hgf : loadDiffFileListM inp.gitFiles = .ok [] := by
    rw [hfiles]
    simp [loadDiffFileListM, ht]
  have hm : reviewerModel inp = reviewerMain inp w { text := "", truncated := false } [] := by
    simp only [reviewerModel, hw, hgd, hgf]
  have hfd : filterDiffByPaths inp.resolveAbs (toLines "") inp.excludePaths [] =
      { text := [""], includedFiles := [], excludedFiles := [], allFiles := [] } := rfl
  rw [hm]
  have htail : reviewTail inp (joinLines [""]) false =
      { stream := [if inp.excludePaths = [] then
          "未检测到最近一次提交的差异，请确认有新的更改后再试。"
        else "未检测到有效差异：所有更改都匹配 swartzCodeReview.excludePaths 配置。"]
      , requestSent := none, reportAttempt := none, reportWritten := false
      , outcome := .noChanges } := by
    unfold reviewTail
    rw [if_pos (show jsTrim (joinLines [""]) = "" from rfl)]
  refine ⟨?_, ?_, ?_, ?_, fun hmwe => ?_⟩
  · show (reviewerMain inp w { text := "", truncated := false } []).requestSent = none
    simp only [reviewerMain, hfd, htail]
  · show (reviewerMain inp w { text := "", truncated := false } []).reportAttempt = none
    simp only [reviewerMain, hfd, htail]
  · show (reviewerMain inp w { text := "", truncated := false } []).outcome = .noChanges
    simp only [reviewerMain, hfd, htail]
  · show (reviewerMain inp w { text := "", truncated := false } []).manifestAttempt = _
    simp only [reviewerMain, hfd]
  · show (reviewerMain inp w { text := "", truncated := false } []).manifestWritten = true
    simp only [reviewerMain, hfd, hmwe, Option.isNone_none]

theorem reviewerModel_eq_noWorkspace (inp : ReviewerInput)
    (hw : inp.workspace = none) :
    reviewerModel inp =
      ⟨["请先在 VS Code 中打开一个 Git 仓库再运行审查。"], [], none, false, none, none,
        false, .noWorkspace⟩ := by
  simp only [reviewerModel, hw]

theorem reviewerModel_eq_gitError (inp : ReviewerInput) (w msg : String)
    (hw : inp.workspace = some w) (hd : loadGitDiffM inp.gitDiff = .error msg) :
    reviewerModel inp = ⟨[msg], [], none, false, none, none, false, .extractionFailure⟩ := by
  simp only [reviewerModel, hw, hd]

theorem reviewerModel_eq_filesError (inp : ReviewerInput) (w msg : String) (c : TextChunk)
    (hw : inp.workspace = some w) (hd : loadGitDiffM inp.gitDiff = .ok c)
    (hf : loadDiffFileListM inp.gitFiles = .error msg) :
    reviewerModel inp = ⟨[msg], [], none, false, none, none, false, .extractionFailure⟩ := by
  simp only [reviewerModel, hw, hd, hf]

theorem reviewerModel_eq_main (inp : ReviewerInput) (w : String) (c : TextChunk)
    (f : List String) (hw : inp.workspace = some w)
    (hd : loadGitDiffM inp.gitDiff = .ok c)
    (hf : loadDiffFileListM inp.gitFiles = .ok f) :
    reviewerModel inp = reviewerMain inp w c f := by
  simp only [reviewerModel, hw, hd, hf]

theorem reviewTail_mwe_irrel (inp : ReviewerInput) (x : Option String)
    (p : String) (tr : Bool) :
    reviewTail { inp with manifestWriteErr := x } p tr = reviewTail inp p tr := rfl

theorem reviewTail_clear_both (inp : ReviewerInput) (p : String) (tr : Bool) :
    reviewTail { inp with manifestWriteErr := none, reportWriteErr := none } p tr
      = reviewTail { inp with reportWriteErr := none } p tr := rfl

theorem reviewTail_rwe_invariants (inp : ReviewerInput) (y : Option String)
    (p : String) (tr : Bool) :
    (reviewTail { inp with reportWriteErr := y } p tr).outcome
        = (reviewTail inp p tr).outcome ∧
    (reviewTail { inp with reportWriteErr := y } p tr).requestSent
        = (reviewTail inp p tr).requestSent ∧
    ((reviewTail { inp with reportWriteErr := y } p tr).reportAttempt
        = (reviewTail inp p tr).reportAttempt) := by
  unfold reviewTail
  by_cases he : jsTrim p = ""
  · simp [he]
  · simp only [if_neg he]
    cases hr : inp.modelResponse with
    | error e => simp [hr]
    | ok html =>
      simp only [hr]
      cases y <;> cases hre : inp.reportWriteErr <;> simp [hre]

/-- The same invocation with both artifact writes succeeding. -/
def clearWrites (inp : ReviewerInput) : ReviewerInput :=
  { inp with manifestWriteErr := none, reportWriteErr := none }

/-- The same invocation with the report write succeeding. -/
def clearReportErr (inp : ReviewerInput) : ReviewerInput :=
  { inp with reportWriteErr := none }

/-- The same invocation with the manifest write succeeding. -/
def clearManifestErr (inp : ReviewerInput) : ReviewerInput :=
  { inp with manifestWriteErr := none }

/-- **C10 (amended).** Artifact-write failures are never fatal and never
change the request, the attempts, or the outcome (first conjunct, against
the fully-succeeding run).  A report write failure is surfaced to the user
as a warning appended as the final stream message, with everything already
delivered unchanged (second conjunct).  A manifest write failure, however,
is only logged as a developer-console diagnostic: the user-visible stream
merely lacks the save notification and carries no warning (third
conjunct). -/
theorem persistence_failures_nonfatal (inp : ReviewerInput) :
    ((reviewerModel inp).outcome = (reviewerModel (clearWrites inp)).outcome ∧
      (reviewerModel inp).requestSent = (reviewerModel (clearWrites inp)).requestSent ∧
      (reviewerModel inp).manifestAttempt = (reviewerModel (clearWrites inp)).manifestAttempt ∧
      (reviewerModel inp).reportAttempt = (reviewerModel (clearWrites inp)).reportAttempt) ∧
    (∀ e, inp.reportWriteErr = some e →
      (reviewerModel inp).reportAttempt.isSome = true →
      ∃ A, (reviewerModel inp).stream = A ++ ["审查生成成功，但保存文件失败：" ++ e] ∧
        (reviewerModel (clearReportErr inp)).stream =
          A ++ ["审查完成，报告已保存：`" ++ inp.reportPath ++ "`"]) ∧
    (∀ e, inp.manifestWriteErr = some e →
      (reviewerModel inp).manifestAttempt.isSome = true →
      ("写入临时文件失败：" ++ e) ∈ (reviewerModel inp).logs ∧
      ∃ A B, (reviewerModel (clearManifestErr inp)).stream
          = A ++ ("文件概览已保存到临时文件：`" ++ inp.manifestPath ++ "`") :: B ∧
        (reviewerModel inp).stream = A ++ B) := by
  cases hw : inp.workspace with
  | none =>
    have h0 := reviewerModel_eq_noWorkspace inp hw
    have h1 := reviewerModel_eq_noWorkspace (clearWrites inp) hw
    refine ⟨?_, ?_, ?_⟩
    · rw [h0, h1]
      exact ⟨rfl, rfl, rfl, rfl⟩
    · intro e _ hsome
      rw [h0] at hsome
      simp at hsome
    · intro e _ hsome
      rw [h0] at hsome
      simp at hsome
  | some w =>
    cases hd : loadGitDiffM inp.gitDiff with
    | error msg =>
      have h0 := reviewerModel_eq_gitError inp w msg hw hd
      have h1 := reviewerModel_eq_gitError (clearWrites inp) w msg hw hd
      refine ⟨?_, ?_, ?_⟩
      · rw [h0, h1]
        exact ⟨rfl, rfl, rfl, rfl⟩
      · intro e _ hsome
        rw [h0] at hsome
        simp at hsome
      · intro e _ hsome
        rw [h0] at hsome
        simp at hsome
    | ok c =>
      cases hf : loadDiffFileListM inp.gitFiles with
      | error msg =>
        have h0 := reviewerModel_eq_filesError inp w msg c hw hd hf
        have h1 := reviewerModel_eq_filesError (clearWrites inp) w msg c hw hd hf
        refine ⟨?_, ?_, ?_⟩
        · rw [h0, h1]
          exact ⟨rfl, rfl, rfl, rfl⟩
        · intro e _ hsome
          rw [h0] at hsome
          simp at hsome
        · intro e _ hsome
          rw [h0] at hsome
          simp at hsome
      | ok f =>
        have h0 := reviewerModel_eq_main inp w c f hw hd hf
        have h1 := reviewerModel_eq_main (clearWrites inp) w c f hw hd hf
        have h2 := reviewerModel_eq_main (clearReportErr inp) w c f hw hd hf
        have h3 := reviewerModel_eq_main (clearManifestErr inp) w c f hw hd hf
        refine ⟨?_, ?_, ?_⟩
        · rw [h0, h1]
          refine ⟨?_, ?_, ?_, ?_⟩
          · simp only [reviewerMain, clearWrites]
            rw [reviewTail_clear_both]
            exact ((reviewTail_rwe_invariants inp none _ _).1).symm
          · simp only [reviewerMain, clearWrites]
            rw [reviewTail_clear_both]
            exact ((reviewTail_rwe_invariants inp none _ _).2.1).symm
          · simp only [reviewerMain, clearWrites]
          · simp only [reviewerMain, clearWrites]
            rw [reviewTail_clear_both]
            exact ((reviewTail_rwe_invariants inp none _ _).2.2).symm
        · intro e hre hsome
          rw [h0] at hsome ⊢
          rw [h2]
          simp only [reviewerMain, clearReportErr] at hsome ⊢
          by_cases hemp : jsTrim (joinLines (filterDiffByPaths inp.resolveAbs
              (toLines c.text) inp.excludePaths f).text) = ""
          · unfold reviewTail at hsome
            rw [if_pos hemp] at hsome
            simp at hsome
          · unfold reviewTail at hsome ⊢
            rw [if_neg hemp] at hsome ⊢
            cases hr : inp.modelResponse with
            | error e2 =>
              rw [hr] at hsome
              simp at hsome
            | ok html =>
              rw [hr] at hsome
              rw [if_neg hemp]
              simp only [hr, hre]
              refine ⟨(if (filterDiffByPaths inp.resolveAbs (toLines c.text)
                    inp.excludePaths f).allFiles = [] then
                  "未能解析出 diff 文件列表，请确认最近一次提交包含文件变更。"
                else summaryMarkdown (filterDiffByPaths inp.resolveAbs (toLines c.text)
                    inp.excludePaths f)) ::
                ((match inp.manifestWriteErr with
                  | none => ["文件概览已保存到临时文件：`" ++ inp.manifestPath ++ "`"]
                  | some _ => []) ++
                 (if inp.checklistFiles = [] then
                    ["未配置检查清单，已加载默认检查清单。"]
                  else [joinSep "\n" ("将加载以下检查清单：" ::
                    inp.checklistFiles.map fun g => "- " ++ g)])), ?_, ?_⟩
              · simp
              · simp
        · intro e hme _
          rw [h0, h3]
          simp only [reviewerMain, clearManifestErr]
          rw [reviewTail_mwe_irrel]
          constructor
          · rw [hme]
            exact List.mem_append_right _ (by simp)
          · rw [hme]
            refine ⟨[if (filterDiffByPaths inp.resolveAbs (toLines c.text)
                  inp.excludePaths f).allFiles = [] then
                "未能解析出 diff 文件列表，请确认最近一次提交包含文件变更。"
              else summaryMarkdown (filterDiffByPaths inp.resolveAbs (toLines c.text)
                  inp.excludePaths f)],
              (reviewTail inp (joinLines (filterDiffByPaths inp.resolveAbs
                (toLines c.text) inp.excludePaths f).text) c.truncated).stream, ?_, ?_⟩
            · simp
            · simp

/-- A concrete invocation that reaches the review request and succeeds. -/
def inpBase : ReviewerInput :=
  { workspace := some "/ws"
  , excludePaths := []
  , checklistFiles := []
  , gitDiff := .ok "line1"
  , gitFiles := .ok "a.go"
  , resolveAbs := fun _ => none
  , resolvePath := fun f => "/ws/" ++ f
  , fsRead := fun _ => none
  , now := "2026-10-11T00:00:00Z"
  , manifestPath := "/tmp/files.json"
  , reportPath := "/ws/report.html"
  , manifestWriteErr := none
  , reportWriteErr := none
  , modelResponse := .ok "<p>No issues found</p>" }

/-- `inpBase` with the report write failing. -/
def inpRepFail : ReviewerInput := { inpBase with reportWriteErr := some "EIO" }

/-- `inpBase` with the manifest write failing. -/
def inpManFail : ReviewerInput := { inpBase with manifestWriteErr := some "EACCES" }

/-- `inpBase` with both VCS commands succeeding on empty output. -/
def inpEmpty : ReviewerInput := { inpBase with gitDiff := .ok "", gitFiles := .ok "" }

/-- Witness for C8: a concrete invocation whose request is sent; the prompt
contains the prepared diff as a contiguous substring. -/
theorem reviewer_request_contains_prepared_witness :
    ∃ p pre post, (reviewerModel inpBase).requestSent = some p ∧
      (p : String).data = pre ++ (preparedDiffOf inpBase).data ++ post := by
  have hp : ∃ p, (reviewerModel inpBase).requestSent = some p := ⟨_, rfl⟩
  obtain ⟨p, hp⟩ := hp
  obtain ⟨pre, post, hc⟩ := reviewer_request_contains_prepared inpBase p hp
  exact ⟨p, pre, post, hp, hc⟩

/-- Witness for C9 at a concrete invocation with empty VCS output: the
no-changes outcome, no request, no report attempt, and a written manifest
with empty file lists. -/
theorem reviewer_empty_diff_no_changes_witness :
    (reviewerModel inpEmpty).requestSent = none ∧
    (reviewerModel inpEmpty).reportAttempt = none ∧
    (reviewerModel inpEmpty).outcome = .noChanges ∧
    (reviewerModel inpEmpty).manifestAttempt =
      some { generatedAt := "2026-10-11T00:00:00Z", workspace := "/ws", allFiles := []
           , includedFiles := [], excludedFiles := [] } ∧
    (reviewerModel inpEmpty).manifestWritten = true := by
  have h := reviewer_empty_diff_no_changes inpEmpty "/ws" "" "" rfl rfl (by decide)
    rfl (by decide)
  exact ⟨h.1, h.2.1, h.2.2.1, h.2.2.2.1, h.2.2.2.2 rfl⟩

/-- Witness for C10 (amended) at concrete invocations: the report-failure
warning replaces the save message as the final stream message, and the
manifest failure lands in the diagnostic log. -/
theorem persistence_failures_nonfatal_witness :
    (∃ A, (reviewerModel inpRepFail).stream
        = A ++ ["审查生成成功，但保存文件失败：" ++ "EIO"] ∧
      (reviewerModel (clearReportErr inpRepFail)).stream
        = A ++ ["审查完成，报告已保存：`" ++ inpRepFail.reportPath ++ "`"]) ∧
    ("写入临时文件失败：" ++ "EACCES") ∈ (reviewerModel inpManFail).logs := by
  constructor
  · exact (persistence_failures_nonfatal inpRepFail).2.1 "EIO" rfl (by decide)
  · exact ((persistence_failures_nonfatal inpManFail).2.2 "EACCES" rfl (by decide)).1

/-- **C10 (counterexample).** The claim says a failed write of either
artifact is reported to the user as a warning.  At this concrete
invocation the manifest write fails, yet no user-visible stream message
mentions any failure (no message contains the substring `失败`; the only
trace is the developer-console log), so the manifest write failure is not
reported to the user. -/
theorem manifest_failure_not_user_visible :
    (reviewerModel inpManFail).manifestAttempt.isSome = true ∧
    (reviewerModel inpManFail).manifestWritten = false ∧
    (reviewerModel inpManFail).stream.all
      (fun m => !containsSeg "失败".data m.data) = true := by decide

end SwartzCodeReview
